import Mathlib

set_option maxHeartbeats 1000000

/-!
Verification development for the saccharin blood-sugar data pipeline
(`saccharin.py` / `sweetener.py`).

The pipeline's numeric cells are numpy/pandas `float64` values.  For the
properties verified here (comparisons against thresholds, addition of
insulin doses, division by an exactly-zero denominator, NaN-skipping
means) only the special-value structure of IEEE-754 matters, so floats
are modelled as `EFloat`: an exact rational for finite values, plus
`+inf`, `-inf` and `NaN`.  Comparisons with `NaN` are false, `NaN`
propagates through arithmetic, and a nonzero finite value divided by
zero is a signed infinity, exactly as in IEEE-754 (the model has a
single zero; the pipeline only ever divides by the non-negative zero
produced by `fillna(0.0)` sums).
-/

/-- A pandas/numpy scalar: an exact rational for a finite float, a signed
infinity, or NaN (which also encodes a missing value in a float column). -/
inductive EFloat where
  | fin : ℚ → EFloat
  | pinf : EFloat
  | ninf : EFloat
  | nan : EFloat
deriving DecidableEq

open EFloat

/-- NaN test (`np.isnan` / missing-value test for a float cell). -/
def EFloat.isNaN : EFloat → Bool
  | nan => true
  | _ => false

/-- Finiteness test (`np.isfinite`). -/
def EFloat.isFinite : EFloat → Bool
  | fin _ => true
  | _ => false

/-- IEEE-754 `>` on floats: any comparison involving NaN is false. -/
def fgt : EFloat → EFloat → Bool
  | nan, _ => false
  | _, nan => false
  | fin a, fin b => decide (b < a)
  | fin _, pinf => false
  | fin _, ninf => true
  | pinf, pinf => false
  | pinf, _ => true
  | ninf, _ => false

/-- IEEE-754 `<` on floats: `a < b` iff `b > a`; NaN comparisons are false. -/
def flt (a b : EFloat) : Bool := fgt b a

/-- IEEE-754 addition: NaN propagates; `+inf + -inf` is NaN. -/
def fadd : EFloat → EFloat → EFloat
  | nan, _ => nan
  | _, nan => nan
  | fin a, fin b => fin (a + b)
  | fin _, pinf => pinf
  | fin _, ninf => ninf
  | pinf, fin _ => pinf
  | pinf, pinf => pinf
  | pinf, ninf => nan
  | ninf, fin _ => ninf
  | ninf, pinf => nan
  | ninf, ninf => ninf

/-- IEEE-754 division as used by the pipeline: a nonzero finite numerator
over (positive) zero is a signed infinity, `0/0` is NaN, `inf/inf` is NaN. -/
def fdiv : EFloat → EFloat → EFloat
  | nan, _ => nan
  | _, nan => nan
  | fin a, fin b =>
      if b = 0 then (if a = 0 then nan else if 0 < a then pinf else ninf)
      else fin (a / b)
  | fin _, pinf => fin 0
  | fin _, ninf => fin 0
  | pinf, fin b => if 0 ≤ b then pinf else ninf
  | ninf, fin b => if 0 ≤ b then ninf else pinf
  | pinf, pinf => nan
  | pinf, ninf => nan
  | ninf, pinf => nan
  | ninf, ninf => nan

/-- `to_float` (saccharin.py:22-24): `pd.to_numeric(series, "coerce").fillna(default)`
applied to one cell of a float column — a missing/unparsable cell (NaN after
coercion) becomes the default, any other value is kept. -/
def to_float (x : EFloat) (default : ℚ) : EFloat :=
  if x.isNaN then fin default else x

/-- `label_outlier` (saccharin.py:83-90): `"High"` if the sugar level is above
`outlier_high`, else `"Low"` if below `outlier_low`, else the empty string. -/
def label_outlier (sugar_level outlier_high outlier_low : EFloat) : String :=
  if fgt sugar_level outlier_high then "High"
  else if flt sugar_level outlier_low then "Low"
  else ""

/-- One glucose-log record, restricted to the fields the verified claims
touch.  Numeric fields are float cells (NaN = missing); `tags` is the
`Tags` cell, `none` when missing (pandas NaN in an object column). -/
structure Record where
  glucose_mmol_l : EFloat
  tags : Option String
  meal_insulin_units : EFloat
  correction_insulin_units : EFloat
  meal_carbs_g : EFloat
deriving DecidableEq

/-- Hyperglycemia flag (saccharin.py:232, sweetener.py:131):
`glucose > threshold`, threshold 10.0 in the source, spec-configurable. -/
def hyperglycemic (threshold : ℚ) (g : EFloat) : Bool := fgt g (fin threshold)

/-- Hypoglycemia flag (saccharin.py:233, sweetener.py:132):
`glucose < threshold`, threshold 4.0 in the source, spec-configurable. -/
def hypoglycemic (threshold : ℚ) (g : EFloat) : Bool := flt g (fin threshold)

/-- `sugar_df["Hyperglycemia"]` derivation at the source's threshold. -/
def hyperFlag (r : Record) : Bool := hyperglycemic 10 r.glucose_mmol_l

/-- `sugar_df["Hypoglycemia"]` derivation at the source's threshold. -/
def hypoFlag (r : Record) : Bool := hypoglycemic 4 r.glucose_mmol_l

/-- `sugar_df["Total Insulin (Meal)"]` (saccharin.py:236-238):
`to_float(meal, 0.0) + to_float(correction, 0.0)`. -/
def totalMealInsulin (r : Record) : EFloat :=
  fadd (to_float r.meal_insulin_units 0) (to_float r.correction_insulin_units 0)

/-- `sugar_df["Insulin Carb Ratio (ICR)"]` (saccharin.py:240-243):
carbohydrate grams divided by the total meal insulin. -/
def icr (r : Record) : EFloat := fdiv r.meal_carbs_g (totalMealInsulin r)

/-! ## DataFrame cells and `drop_empty` -/

/-- One DataFrame cell: a string, a float, a boolean (derived flag columns),
or a non-float missing value (`None`/`NaN` in an object column). -/
inductive Cell where
  | cstr : String → Cell
  | cnum : EFloat → Cell
  | cbool : Bool → Cell
  | cna : Cell
deriving DecidableEq

/-- Python whitespace, as stripped by `str.strip()`. -/
def isPyWS (c : Char) : Bool :=
  c = ' ' || c = '\t' || c = '\n' || c = '\r' || c = '\x0b' || c = '\x0c'

/-- Python `str.strip()`: remove leading and trailing whitespace. -/
def pstrip (s : String) : String :=
  ⟨((s.data.dropWhile isPyWS).reverse.dropWhile isPyWS).reverse⟩

/-- The `applymap` step of `drop_empty` (saccharin.py:30): strip string
cells, leave every other cell unchanged. -/
def stripCell : Cell → Cell
  | Cell.cstr s => Cell.cstr (pstrip s)
  | c => c

/-- The `replace("", np.nan)` step of `drop_empty` (saccharin.py:33). -/
def blankToNA : Cell → Cell
  | Cell.cstr s => if s = "" then Cell.cna else Cell.cstr s
  | c => c

/-- pandas `isna` on a cell: `None`/`NaN` markers and float NaN are
missing; every other value (including infinities and `""`) is not. -/
def isNA : Cell → Bool
  | Cell.cna => true
  | Cell.cnum x => x.isNaN
  | _ => false

/-- A DataFrame as the claims need it: named columns of cells. -/
abbrev DataFrame : Type := List (String × List Cell)

/-- `drop_empty` (saccharin.py:27-35): strip string cells, turn cells that
became empty into NaN, then `dropna(axis=1, how="all")` — keep exactly the
columns with at least one non-missing cell. -/
def drop_empty (df : DataFrame) : DataFrame :=
  (df.map (fun col => (col.1, col.2.map (fun c => blankToNA (stripCell c))))).filter
    (fun col => col.2.any (fun c => !isNA c))

/-! ## Tag canonicalization (`sort_tags`) -/

/-- Python `str.split(",")` on the character list of a string: maximal
comma-free chunks, one more chunk than separators (`""` splits to `[""]`).
Models the `tags.str.split(",")` step of `sort_tags` (saccharin.py:41). -/
def splitComma : List Char → List (List Char)
  | [] => [[]]
  | c :: cs =>
    match splitComma cs with
    | [] => [[c]]
    | w :: ws => if c = ',' then [] :: w :: ws else (c :: w) :: ws

/-- Python `",".join(words)` on character lists (saccharin.py:48). -/
def joinComma : List (List Char) → List Char
  | [] => []
  | [w] => w
  | w :: w2 :: ws => w ++ ',' :: joinComma (w2 :: ws)

/-- `sort_tags` (saccharin.py:38-49) on one tag cell: split on comma, sort
the chunks (Python `sorted`, i.e. lexicographically by code point — on a
linear order the output list is determined by sortedness plus the input
multiset, so the structurally recursive `insertionSort` is a faithful
model of Python's stable sort), and rejoin with commas. -/
def sort_tags (s : String) : String :=
  ⟨joinComma (List.insertionSort (· ≤ ·) (splitComma s.data))⟩

/-! ## Statistics -/

/-- Count of non-missing values in a float column — the `count` row of
`DataFrame.describe()` (saccharin.py:256). -/
def describe_count (xs : List EFloat) : Nat := (xs.filter (fun x => !x.isNaN)).length

/-- A boolean cell viewed as the 0/1 float pandas aggregates it as. -/
def bool_float (b : Bool) : EFloat := fin (if b then 1 else 0)

/-- `sugar_df[sugar_df[glycemia]][glycemia].agg("count")` (saccharin.py:264,
sweetener.py:143): filter the rows where the flag holds, then take the
non-missing count of the resulting boolean column. -/
def glycemia_count (rs : List Record) (flag : Record → Bool) : Nat :=
  describe_count ((rs.filter flag).map (fun r => bool_float (flag r)))

/-- `stats_df.loc["count", key] = v` (saccharin.py:265, sweetener.py:144)
on the count row, viewed as an association list. -/
def set_loc (row : List (String × Nat)) (key : String) (v : Nat) :
    List (String × Nat) :=
  row.map (fun p => if p.1 = key then (p.1, v) else p)

/-- The `count` row of the statistics table for the columns the claims
touch: `describe()` counts, then the per-flag override loop of
saccharin.py:262-265 / sweetener.py:141-144. -/
def count_row (rs : List Record) : List (String × Nat) :=
  let base := [("Blood Sugar Measurement (mmol/L)",
                  describe_count (rs.map Record.glucose_mmol_l)),
               ("Hyperglycemia",
                  describe_count (rs.map (fun r => bool_float (hyperFlag r)))),
               ("Hypoglycemia",
                  describe_count (rs.map (fun r => bool_float (hypoFlag r))))]
  set_loc (set_loc base "Hyperglycemia" (glycemia_count rs hyperFlag))
    "Hypoglycemia" (glycemia_count rs hypoFlag)

/-- Sum of a float column (pandas adds the values left to right; `fadd` is
the IEEE addition above). -/
def fsum (xs : List EFloat) : EFloat := xs.foldr fadd (fin 0)

/-- pandas `mean()` with the default `skipna=True`: drop NaN entries, then
sum-over-count; the mean of no values is NaN.  Infinities are ordinary
values here, exactly as in pandas/numpy `nanmean`. -/
def nanMean (xs : List EFloat) : EFloat :=
  let vs := xs.filter (fun x => !x.isNaN)
  if vs.length = 0 then nan else fdiv (fsum vs) (fin (vs.length : ℚ))

/-- Modelled from the spec (claim C1's wording): the mean of the ratio
column computed with every non-finite value excluded, used only to compare
the claimed behaviour against the `nanMean` the code actually computes. -/
def specMeanExcludingNonfinite (xs : List EFloat) : EFloat :=
  nanMean (xs.filter (fun x => x.isFinite))

/-! ## Grouped meal-tag statistics -/

/-- The fixed meal vocabulary (saccharin.py:268). -/
def meal_tag_vocab : List String := ["Breakfast", "Lunch", "Dinner", "Snack"]

/-- `Tags.str.contains("Breakfast|Lunch|Dinner|Snack")`: the regex is an
alternation of literals, i.e. a substring test for any vocabulary word. -/
def containsMeal (s : String) : Bool :=
  meal_tag_vocab.any (fun t => decide (List.IsInfix t.data s.data))

/-- The row filter of saccharin.py:271-273, with `na=False`: records with
a missing tag cell never match. -/
def mealTagged (r : Record) : Bool :=
  match r.tags with
  | some t => containsMeal t
  | none => false

/-- `meal_stats_df` (saccharin.py:271-284) transposed to columns: filter to
meal-tagged records, group by the full tag string, take the mean glucose
of each group, and label each group's column with the unit suffix. -/
def meal_stats (rs : List Record) : List (String × EFloat) :=
  let meal := rs.filter mealTagged
  ((meal.filterMap Record.tags).dedup).map
    (fun t => (t ++ " (mmol/L)",
      nanMean ((meal.filter (fun r => decide (r.tags = some t))).map
        Record.glucose_mmol_l)))

/-- `stats_df.join(meal_stats_df.T)` (saccharin.py:284): the grouped means
are appended to the statistics table as additional columns. -/
def stats_join (base extra : List (String × EFloat)) : List (String × EFloat) :=
  base ++ extra

/-! ## Rendering -/

/-- Rounding to the nearest integer, ties to even — the rounding of
Python's `"{:.1f}".format` applied to `10 * q`. -/
def halfEvenRound (q : ℚ) : ℤ :=
  if q - ⌊q⌋ < 1 / 2 then ⌊q⌋
  else if 1 / 2 < q - ⌊q⌋ then ⌊q⌋ + 1
  else if ⌊q⌋ % 2 = 0 then ⌊q⌋ else ⌊q⌋ + 1

/-- Digits of a non-negative tenths value `m`, printed as `m/10 . m%10`. -/
def format1fNat (m : Nat) : String := toString (m / 10) ++ "." ++ toString (m % 10)

/-- Python `"{:.1f}".format` on a float: one decimal place for finite
values, `inf`/`-inf`/`nan` for the special values. -/
def format1f : EFloat → String
  | fin q =>
      if halfEvenRound (q * 10) < 0 then
        "-" ++ format1fNat (halfEvenRound (q * 10)).natAbs
      else format1fNat (halfEvenRound (q * 10)).toNat
  | pinf => "inf"
  | ninf => "-inf"
  | nan => "nan"

/-- The statistics-cell renderer of `template_excel` (saccharin.py:161-163,
sweetener.py:93-95): `"" if np.isnan(stat) else "{:.1f}".format(stat)`. -/
def format_stat (x : EFloat) : String := if x.isNaN then "" else format1f x

/-- `bool_to_str` (saccharin.py:152, sweetener.py:78). -/
def bool_to_str (b : Bool) : String := if b then "yes" else "no"

/-- Python truthiness of a cell, as `bool_to_str`'s condition sees it
(`Series.apply` hands it every cell of the column; on the boolean flag
columns every cell is a `cbool`). -/
def cell_truthy : Cell → Bool
  | Cell.cbool b => b
  | Cell.cnum x => !(x = fin 0 : Bool)
  | Cell.cstr s => !(s = "" : Bool)
  | Cell.cna => true

/-- `column.apply(bool_to_str)` on one cell. -/
def cell_yes_no (c : Cell) : Cell := Cell.cstr (bool_to_str (cell_truthy c))

/-- The effect of `template_excel` (saccharin.py:140-194, sweetener.py:72-105)
on its caller's data: the two glycemia columns of `sugar_df` are converted
in place to `yes`/`no` text; every other `sugar_df` column, and all of
`stats_df`, is left untouched (`stats_df.applymap` rebinds a local name to
a fresh frame and never writes back). -/
def template_excel_mut (sugar : DataFrame) (stats : DataFrame) :
    DataFrame × DataFrame :=
  (sugar.map (fun col =>
      if col.1 = "Hyperglycemia" ∨ col.1 = "Hypoglycemia" then
        (col.1, col.2.map cell_yes_no)
      else col),
   stats)

/-! ## Claims -/

/-- C2: for every record, the derived Hyperglycemia flag (glucose above the
hyper threshold, default 10.0) and Hypoglycemia flag (glucose below the hypo
threshold, default 4.0) are never simultaneously true, for any threshold
configuration with `hypo ≤ hyper`; in particular this holds for the flags
the source derives at thresholds 10.0 and 4.0. -/
theorem C2_glycemia_flags_exclusive :
    (∀ (hyper hypo : ℚ) (g : EFloat), hypo ≤ hyper →
       ¬(hyperglycemic hyper g = true ∧ hypoglycemic hypo g = true)) ∧
    (∀ r : Record, ¬(hyperFlag r = true ∧ hypoFlag r = true)) := by
  have h1 : ∀ (hyper hypo : ℚ) (g : EFloat), hypo ≤ hyper →
      ¬(hyperglycemic hyper g = true ∧ hypoglycemic hypo g = true) := by
    rintro hyper hypo g hle ⟨hh, hl⟩
    cases g <;> simp [hyperglycemic, hypoglycemic, fgt, flt] at hh hl
    linarith
  exact ⟨h1, fun r ⟨hh, hl⟩ => h1 10 4 r.glucose_mmol_l (by norm_num) ⟨hh, hl⟩⟩

/-- Witness for C2 at a concrete configuration and glucose value. -/
theorem C2_glycemia_witness :
    (4 : ℚ) ≤ 10 ∧
      ¬(hyperglycemic 10 (fin 7) = true ∧ hypoglycemic 4 (fin 7) = true) :=
  ⟨by norm_num, C2_glycemia_flags_exclusive.1 10 4 (fin 7) (by norm_num)⟩

/-- C3: the outlier label is `"High"` exactly when glucose is strictly above
`outlier_high` (checked first), otherwise `"Low"` exactly when strictly below
`outlier_low`, otherwise empty; with the default thresholds, glucose 9.6
yields `"High"` and glucose 4.5 (on the low boundary) yields neither label —
both boundaries are exclusive. -/
theorem C3_label_outlier_spec :
    (∀ g hi lo : EFloat,
       (label_outlier g hi lo = "High" ↔ fgt g hi = true) ∧
       (fgt g hi = false → (label_outlier g hi lo = "Low" ↔ flt g lo = true)) ∧
       (fgt g hi = false → flt g lo = false → label_outlier g hi lo = "")) ∧
    label_outlier (fin 9.6) (fin 9.5) (fin 4.5) = "High" ∧
    label_outlier (fin 4.5) (fin 9.5) (fin 4.5) ≠ "High" ∧
    label_outlier (fin 4.5) (fin 9.5) (fin 4.5) ≠ "Low" := by
  have hmid : label_outlier (fin 4.5) (fin 9.5) (fin 4.5) = "" := by
    simp [label_outlier, fgt, flt]
    norm_num
  refine ⟨fun g hi lo => ?_, ?_, ?_, ?_⟩
  · rcases h1 : fgt g hi <;> rcases h2 : flt g lo <;>
      simp [label_outlier, h1, h2]
  · simp [label_outlier, fgt]
    norm_num
  · rw [hmid]
    decide
  · rw [hmid]
    decide

/-- Witness for C3: the inner hypotheses discharged at concrete values. -/
theorem C3_label_outlier_witness :
    fgt (fin 3) (fin 9) = false ∧
      (label_outlier (fin 3) (fin 9) (fin 4) = "Low" ↔ flt (fin 3) (fin 4) = true) :=
  ⟨by decide, (C3_label_outlier_spec.1 (fin 3) (fin 9) (fin 4)).2.1 (by decide)⟩

/-- C10: `label_outlier` is total and always returns exactly one of
`"High"`, `"Low"`, or the empty string; for a missing (NaN) glucose value
both threshold comparisons are false, so the label is the empty string. -/
theorem C10_label_outlier_total_safe :
    ∀ g hi lo : EFloat,
      (label_outlier g hi lo = "High" ∨ label_outlier g hi lo = "Low" ∨
        label_outlier g hi lo = "") ∧
      (g = nan → label_outlier g hi lo = "") := by
  intro g hi lo
  refine ⟨?_, ?_⟩
  · unfold label_outlier
    rcases h1 : fgt g hi <;> rcases h2 : flt g lo <;> simp
  · rintro rfl
    cases hi <;> cases lo <;> simp [label_outlier, fgt, flt]

/-- Witness for C10 at a NaN glucose value. -/
theorem C10_label_outlier_witness :
    label_outlier nan (fin 9) (fin 4) = "" :=
  (C10_label_outlier_total_safe nan (fin 9) (fin 4)).2 rfl

/-- C6: for every record, `total_meal_insulin` is the sum of the meal and
correction insulin units, where a missing (NaN) operand contributes 0.0
instead of propagating: two present operands add exactly, one missing
operand leaves the other unchanged, and two missing operands give 0.0. -/
theorem C6_total_meal_insulin_sum :
    ∀ (r : Record) (a b : ℚ),
      (r.meal_insulin_units = fin a → r.correction_insulin_units = fin b →
         totalMealInsulin r = fin (a + b)) ∧
      (r.meal_insulin_units = nan → r.correction_insulin_units = fin b →
         totalMealInsulin r = fin b) ∧
      (r.meal_insulin_units = fin a → r.correction_insulin_units = nan →
         totalMealInsulin r = fin a) ∧
      (r.meal_insulin_units = nan → r.correction_insulin_units = nan →
         totalMealInsulin r = fin 0) := by
  intro r a b
  refine ⟨?_, ?_, ?_, ?_⟩ <;> intro h1 h2 <;>
    simp [totalMealInsulin, to_float, h1, h2, fadd, EFloat.isNaN]

/-- Witness for C6: a record with a missing meal dose and a present
correction dose totals exactly the correction dose. -/
theorem C6_total_meal_insulin_witness :
    totalMealInsulin (Record.mk nan none nan (fin 2) (fin 5)) = fin 2 :=
  (C6_total_meal_insulin_sum (Record.mk nan none nan (fin 2) (fin 5)) 0 2).2.1
    rfl rfl

/-- A boolean column holds no missing values, so its `describe()` count is
the full row count. -/
theorem describe_count_bool_col (f : Record → Bool) (l : List Record) :
    describe_count (l.map (fun r => bool_float (f r))) = l.length := by
  unfold describe_count
  rw [List.filter_eq_self.mpr, List.length_map]
  intro x hx
  rcases List.mem_map.mp hx with ⟨r, _, rfl⟩
  simp [bool_float, EFloat.isNaN]

/-- C7: after the post-hoc override, the `count` row reports for each
glycemia column the number of records whose flag is true, not the column's
non-missing count — which, as the last two conjuncts show, would have been
the total record count. -/
theorem C7_glycemia_count_override :
    ∀ rs : List Record,
      (count_row rs).lookup "Hyperglycemia" = some (rs.countP hyperFlag) ∧
      (count_row rs).lookup "Hypoglycemia" = some (rs.countP hypoFlag) ∧
      describe_count (rs.map (fun r => bool_float (hyperFlag r))) = rs.length ∧
      describe_count (rs.map (fun r => bool_float (hypoFlag r))) = rs.length := by
  intro rs
  have hg : ∀ f : Record → Bool, glycemia_count rs f = rs.countP f := by
    intro f
    rw [glycemia_count, describe_count_bool_col, List.countP_eq_length_filter]
  refine ⟨?_, ?_, describe_count_bool_col _ _, describe_count_bool_col _ _⟩ <;>
    simp [count_row, set_loc, List.lookup, hg]

theorem splitComma_cons_eq (c : Char) (cs : List Char) (w : List Char)
    (ws : List (List Char)) (h : splitComma cs = w :: ws) :
    splitComma (c :: cs) = if c = ',' then [] :: w :: ws else (c :: w) :: ws := by
  simp only [splitComma]
  rw [h]

theorem splitComma_ne_nil : ∀ l : List Char, splitComma l ≠ [] := by
  intro l
  induction l with
  | nil => simp [splitComma]
  | cons c cs ih =>
    rcases h : splitComma cs with _ | ⟨w, ws⟩
    · exact absurd h ih
    · rw [splitComma_cons_eq c cs w ws h]
      split <;> simp

theorem splitComma_no_comma :
    ∀ (l : List Char) (w : List Char), w ∈ splitComma l → ',' ∉ w := by
  intro l
  induction l with
  | nil =>
    intro w hw
    simp [splitComma] at hw
    subst hw
    simp
  | cons c cs ih =>
    intro w hw
    rcases h : splitComma cs with _ | ⟨w0, ws0⟩
    · exact absurd h (splitComma_ne_nil cs)
    · rw [splitComma_cons_eq c cs w0 ws0 h] at hw
      by_cases hc : c = ','
      · rw [if_pos hc] at hw
        rcases List.mem_cons.mp hw with hw | hw
        · subst hw
          simp
        · exact ih w (h ▸ hw)
      · rw [if_neg hc] at hw
        rcases List.mem_cons.mp hw with hw | hw
        · subst hw
          intro hm
          rcases List.mem_cons.mp hm with hm | hm
          · exact hc hm.symm
          · exact ih w0 (h ▸ List.mem_cons_self w0 ws0) hm
        · exact ih w (h ▸ List.mem_cons_of_mem w0 hw)

theorem splitComma_of_no_comma :
    ∀ w : List Char, ',' ∉ w → splitComma w = [w] := by
  intro w
  induction w with
  | nil => intro; rfl
  | cons c cs ih =>
    intro h
    have hc : c ≠ ',' := fun e => h (e ▸ List.mem_cons_self c cs)
    have hcs : ',' ∉ cs := fun hm => h (List.mem_cons_of_mem c hm)
    rw [splitComma_cons_eq c cs cs [] (ih hcs), if_neg hc]

theorem splitComma_append_comma :
    ∀ (w t : List Char), ',' ∉ w →
      splitComma (w ++ ',' :: t) = w :: splitComma t := by
  intro w
  induction w with
  | nil =>
    intro t _
    rcases h : splitComma t with _ | ⟨w0, ws0⟩
    · exact absurd h (splitComma_ne_nil t)
    · rw [List.nil_append, splitComma_cons_eq ',' t w0 ws0 h, if_pos rfl]
  | cons c cs ih =>
    intro t h
    have hc : c ≠ ',' := fun e => h (e ▸ List.mem_cons_self c cs)
    have hcs : ',' ∉ cs := fun hm => h (List.mem_cons_of_mem c hm)
    rw [List.cons_append,
      splitComma_cons_eq c (cs ++ ',' :: t) cs (splitComma t) (ih t hcs),
      if_neg hc]

theorem splitComma_joinComma :
    ∀ ws : List (List Char), ws ≠ [] → (∀ w ∈ ws, ',' ∉ w) →
      splitComma (joinComma ws) = ws := by
  intro ws
  induction ws with
  | nil => intro h _; exact absurd rfl h
  | cons w ws ih =>
    intro _ hcf
    rcases ws with _ | ⟨w2, ws2⟩
    · exact splitComma_of_no_comma w (hcf w (List.mem_cons_self w []))
    · have h1 : joinComma (w :: w2 :: ws2) = w ++ ',' :: joinComma (w2 :: ws2) := rfl
      rw [h1, splitComma_append_comma w _ (hcf w (List.mem_cons_self _ _)),
        ih (by simp) (fun v hv => hcf v (List.mem_cons_of_mem w hv))]

/-- C4: tag canonicalization is idempotent — re-canonicalizing any output
of `sort_tags` (in particular any already-canonical tag string) returns it
unchanged — and order-insensitive: two tag strings whose comma-split chunk
lists are permutations of each other canonicalize to the same string. -/
theorem C4_sort_tags_canonical :
    (∀ s : String, sort_tags (sort_tags s) = sort_tags s) ∧
    (∀ s₁ s₂ : String, (splitComma s₁.data).Perm (splitComma s₂.data) →
        sort_tags s₁ = sort_tags s₂) := by
  constructor
  · intro s
    unfold sort_tags
    have hnn : List.insertionSort (· ≤ ·) (splitComma s.data) ≠ [] := by
      intro h
      have hp := List.perm_insertionSort ((· ≤ ·) : List Char → List Char → Prop)
        (splitComma s.data)
      rw [h] at hp
      exact splitComma_ne_nil s.data hp.symm.eq_nil
    have hcf : ∀ w ∈ List.insertionSort (· ≤ ·) (splitComma s.data), ',' ∉ w := by
      intro w hw
      exact splitComma_no_comma s.data w ((List.mem_insertionSort _).mp hw)
    rw [show (String.mk (joinComma (List.insertionSort (· ≤ ·) (splitComma s.data)))).data
        = joinComma (List.insertionSort (· ≤ ·) (splitComma s.data)) from rfl]
    rw [splitComma_joinComma _ hnn hcf]
    rw [List.Sorted.insertionSort_eq (List.sorted_insertionSort _ _)]
  · intro s₁ s₂ hperm
    unfold sort_tags
    have h : List.insertionSort (· ≤ ·) (splitComma s₁.data)
        = List.insertionSort (· ≤ ·) (splitComma s₂.data) :=
      List.eq_of_perm_of_sorted
        ((List.perm_insertionSort _ _).trans
          (hperm.trans (List.perm_insertionSort _ _).symm))
        (List.sorted_insertionSort _ _)
        (List.sorted_insertionSort _ _)
    rw [h]

/-- Witness for C4: the spec's example pair, listing the same tags in
different orders, canonicalizes to the same string. -/
theorem C4_sort_tags_witness :
    (splitComma (String.data "Lunch,Breakfast")).Perm
        (splitComma (String.data "Breakfast,Lunch")) ∧
      sort_tags "Lunch,Breakfast" = sort_tags "Breakfast,Lunch" :=
  ⟨by decide, C4_sort_tags_canonical.2 "Lunch,Breakfast" "Breakfast,Lunch"
    (by decide)⟩

theorem nodup_keys_val_eq {α : Type} :
    ∀ (l : List (String × α)) (n : String) (a b : α),
      (l.map Prod.fst).Nodup → (n, a) ∈ l → (n, b) ∈ l → a = b := by
  intro l
  induction l with
  | nil => intro n a b _ ha; exact absurd ha (List.not_mem_nil _)
  | cons p ps ih =>
    intro n a b hnd ha hb
    rw [List.map_cons, List.nodup_cons] at hnd
    rcases List.mem_cons.mp ha with ha | ha <;>
      rcases List.mem_cons.mp hb with hb | hb
    · rw [← ha] at hb
      exact (Prod.mk.injEq _ _ _ _).mp hb.symm |>.2
    · exact absurd (List.mem_map.mpr ⟨(n, b), hb, by rw [← ha]⟩) hnd.1
    · exact absurd (List.mem_map.mpr ⟨(n, a), ha, by rw [← hb]⟩) hnd.1
    · exact ih n a b hnd.2 ha hb

/-- C5: in a frame with distinct column names, a column whose every cell is
missing or becomes empty after whitespace trimming is removed entirely by
`drop_empty` (its name is absent from the schema), while a column with at
least one non-empty value is retained. -/
theorem C5_drop_empty_schema :
    ∀ df : DataFrame, (df.map Prod.fst).Nodup →
      ∀ (n : String) (cells : List Cell), (n, cells) ∈ df →
        ((∀ c ∈ cells, isNA (blankToNA (stripCell c)) = true) →
           n ∉ (drop_empty df).map Prod.fst) ∧
        ((∃ c ∈ cells, isNA (blankToNA (stripCell c)) = false) →
           n ∈ (drop_empty df).map Prod.fst) := by
  intro df hnd n cells hmem
  constructor
  · intro hall hin
    rcases List.mem_map.mp hin with ⟨col, hcol, hfst⟩
    rcases List.mem_filter.mp hcol with ⟨hcol2, hkeep⟩
    rcases List.mem_map.mp hcol2 with ⟨col0, hcol0, hnorm⟩
    have hname : col0.1 = n := by rw [← hnorm] at hfst; exact hfst
    have hcells : col0.2 = cells := by
      apply nodup_keys_val_eq df n col0.2 cells hnd _ hmem
      rw [← hname]
      exact hcol0
    rcases List.any_eq_true.mp (by rw [← hnorm] at hkeep; exact hkeep) with ⟨c, hc, hcna⟩
    rcases List.mem_map.mp hc with ⟨c0, hc0, rfl⟩
    rw [hcells] at hc0
    simp [hall c0 hc0] at hcna
  · rintro ⟨c, hc, hcna⟩
    apply List.mem_map.mpr
    refine ⟨(n, cells.map (fun c => blankToNA (stripCell c))), ?_, rfl⟩
    apply List.mem_filter.mpr
    refine ⟨List.mem_map.mpr ⟨(n, cells), hmem, rfl⟩, ?_⟩
    simp only [List.any_eq_true]
    exact ⟨_, List.mem_map.mpr ⟨c, hc, rfl⟩, by simp [hcna]⟩

/-- Witness for C5: a two-column frame whose first column is whitespace-only
loses exactly that column. -/
theorem C5_drop_empty_witness :
    "A" ∉ (drop_empty [("A", [Cell.cstr "  "]),
        ("B", [Cell.cstr "x"])]).map Prod.fst ∧
      "B" ∈ (drop_empty [("A", [Cell.cstr "  "]),
        ("B", [Cell.cstr "x"])]).map Prod.fst :=
  ⟨(C5_drop_empty_schema _ (by decide) "A" [Cell.cstr "  "] (by decide)).1
      (by decide),
   (C5_drop_empty_schema _ (by decide) "B" [Cell.cstr "x"] (by decide)).2
      ⟨Cell.cstr "x", by decide, by decide⟩⟩

/-- Restricted to records carrying tag `t` (with `t` in the meal
vocabulary), filtering first by the meal-substring test changes nothing. -/
theorem meal_group_filter_eq (rs : List Record) (t : String)
    (hcm : containsMeal t = true) :
    (rs.filter mealTagged).filter (fun r => decide (r.tags = some t))
      = rs.filter (fun r => decide (r.tags = some t)) := by
  rw [List.filter_filter]
  apply List.filter_congr
  intro r _
  rcases h : decide (r.tags = some t) with _ | _
  · simp
  · have ht : r.tags = some t := of_decide_eq_true h
    simp [mealTagged, ht, hcm]

/-- C8: the grouped meal statistics contain exactly one column per distinct
tag string of the records whose tags contain a meal-vocabulary word as a
substring; the column is labeled with the `" (mmol/L)"` suffix and holds
the mean glucose of the group of records carrying exactly that tag string,
and the columns are appended to the statistics table by the join. -/
theorem C8_meal_stats_columns :
    ∀ (rs : List Record) (col : String) (v : EFloat),
      ((col, v) ∈ meal_stats rs ↔
        ∃ t : String, (∃ r ∈ rs, r.tags = some t ∧ containsMeal t = true) ∧
          col = t ++ " (mmol/L)" ∧
          v = nanMean ((rs.filter (fun r => decide (r.tags = some t))).map
            Record.glucose_mmol_l)) ∧
      (∀ base : List (String × EFloat),
        ((col, v) ∈ stats_join base (meal_stats rs) ↔
          (col, v) ∈ base ∨ (col, v) ∈ meal_stats rs)) := by
  intro rs col v
  have hkey : ∀ t : String,
      (t ∈ ((rs.filter mealTagged).filterMap Record.tags).dedup ↔
        (∃ r ∈ rs, r.tags = some t ∧ containsMeal t = true)) := by
    intro t
    rw [List.mem_dedup, List.mem_filterMap]
    constructor
    · rintro ⟨r, hr, htags⟩
      rcases List.mem_filter.mp hr with ⟨hrs, hmt⟩
      refine ⟨r, hrs, htags, ?_⟩
      rw [mealTagged, htags] at hmt
      exact hmt
    · rintro ⟨r, hrs, htags, hcm⟩
      refine ⟨r, List.mem_filter.mpr ⟨hrs, ?_⟩, htags⟩
      rw [mealTagged, htags]
      exact hcm
  constructor
  · simp only [meal_stats]
    rw [List.mem_map]
    constructor
    · rintro ⟨t, ht, heq⟩
      rcases Prod.mk.injEq .. |>.mp heq with ⟨hcol, hv⟩
      have hmem := (hkey t).mp ht
      rcases hmem with ⟨r, hrs, htags, hcm⟩
      refine ⟨t, ⟨r, hrs, htags, hcm⟩, hcol.symm, ?_⟩
      rw [← hv, meal_group_filter_eq rs t hcm]
    · rintro ⟨t, hex, hcol, hv⟩
      refine ⟨t, (hkey t).mpr hex, ?_⟩
      rcases hex with ⟨r, hrs, htags, hcm⟩
      rw [meal_group_filter_eq rs t hcm, ← hcol, ← hv]
  · intro base
    rw [stats_join, List.mem_append]

/-- C9: rendering returns the caller's statistics table unchanged and the
record table with exactly its column names; a column that is neither
glycemia flag is passed through identically, each glycemia column is
converted cell-wise by `bool_to_str`, and on a boolean cell that
conversion is precisely the `yes`/`no` text. -/
theorem C9_template_excel_frame :
    ∀ (sugar stats : DataFrame),
      (template_excel_mut sugar stats).2 = stats ∧
      (template_excel_mut sugar stats).1.map Prod.fst = sugar.map Prod.fst ∧
      (∀ col ∈ sugar, col.1 ≠ "Hyperglycemia" → col.1 ≠ "Hypoglycemia" →
          col ∈ (template_excel_mut sugar stats).1) ∧
      (∀ col ∈ sugar, (col.1 = "Hyperglycemia" ∨ col.1 = "Hypoglycemia") →
          (col.1, col.2.map cell_yes_no) ∈ (template_excel_mut sugar stats).1) ∧
      (∀ b : Bool, cell_yes_no (Cell.cbool b) = Cell.cstr (bool_to_str b)) := by
  intro sugar stats
  refine ⟨rfl, ?_, ?_, ?_, fun b => rfl⟩
  · simp only [template_excel_mut, List.map_map]
    apply List.map_congr_left
    intro col _
    by_cases h : col.1 = "Hyperglycemia" ∨ col.1 = "Hypoglycemia" <;> simp [h]
  · intro col hcol h1 h2
    exact List.mem_map.mpr ⟨col, hcol, by simp [template_excel_mut, h1, h2]⟩
  · intro col hcol h
    exact List.mem_map.mpr ⟨col, hcol, by simp [template_excel_mut, h]⟩

/-- Witness for C9: a non-glycemia column survives rendering untouched and
a boolean glycemia column is converted to `yes`/`no` text. -/
theorem C9_template_excel_witness :
    ("Note", [Cell.cstr "a"]) ∈
        (template_excel_mut [("Hyperglycemia", [Cell.cbool true]),
          ("Note", [Cell.cstr "a"])] [("x", [Cell.cna])]).1 ∧
      ("Hyperglycemia", [Cell.cstr "yes"]) ∈
        (template_excel_mut [("Hyperglycemia", [Cell.cbool true]),
          ("Note", [Cell.cstr "a"])] [("x", [Cell.cna])]).1 :=
  ⟨(C9_template_excel_frame [("Hyperglycemia", [Cell.cbool true]),
        ("Note", [Cell.cstr "a"])] [("x", [Cell.cna])]).2.2.1
      ("Note", [Cell.cstr "a"]) (by decide) (by decide) (by decide),
   (C9_template_excel_frame [("Hyperglycemia", [Cell.cbool true]),
        ("Note", [Cell.cstr "a"])] [("x", [Cell.cna])]).2.2.2.1
      ("Hyperglycemia", [Cell.cbool true]) (by decide) (Or.inl rfl)⟩

/-- A sum of values none of which is NaN or `-inf` is itself neither NaN
nor `-inf`. -/
theorem fsum_not_nan_not_ninf :
    ∀ xs : List EFloat, (∀ x ∈ xs, x.isNaN = false ∧ x ≠ ninf) →
      (fsum xs).isNaN = false ∧ fsum xs ≠ ninf := by
  intro xs
  induction xs with
  | nil => intro _; exact ⟨rfl, by simp [fsum]⟩
  | cons x xs ih =>
    intro h
    rcases h x (List.mem_cons_self x xs) with ⟨hx1, hx2⟩
    rcases ih (fun y hy => h y (List.mem_cons_of_mem x hy)) with ⟨hs1, hs2⟩
    have hfs : fsum (x :: xs) = fadd x (fsum xs) := rfl
    rcases hx : x <;> rcases hs : fsum xs <;>
      simp_all [fadd, EFloat.isNaN]

/-- A `+inf` entry propagates into the skip-NaN mean when the other
entries are neither NaN nor `-inf`. -/
theorem nanMean_pinf_cons :
    ∀ xs : List EFloat, (∀ x ∈ xs, x.isNaN = false ∧ x ≠ ninf) →
      nanMean (pinf :: xs) = pinf := by
  intro xs h
  have hsum : fadd pinf (fsum xs) = pinf := by
    rcases fsum_not_nan_not_ninf xs h with ⟨hs1, hs2⟩
    rcases hs : fsum xs <;> simp_all [fadd, EFloat.isNaN]
  have h1 : (pinf :: xs).filter (fun x => !x.isNaN) = pinf :: xs := by
    rw [List.filter_eq_self]
    intro x hx
    rcases List.mem_cons.mp hx with rfl | hx
    · rfl
    · simp [(h x hx).1]
  simp only [nanMean, h1]
  rw [if_neg (by simp : ¬(pinf :: xs).length = 0)]
  rw [show fsum (pinf :: xs) = fadd pinf (fsum xs) from rfl, hsum]
  show (if (0:ℚ) ≤ (((pinf :: xs).length : ℚ)) then pinf else ninf) = pinf
  rw [if_pos (by positivity)]

/-- A sum of finite values is finite. -/
theorem fsum_all_fin :
    ∀ xs : List EFloat, (∀ x ∈ xs, x.isFinite = true) →
      ∃ a : ℚ, fsum xs = fin a := by
  intro xs
  induction xs with
  | nil => intro _; exact ⟨0, rfl⟩
  | cons x xs ih =>
    intro h
    rcases ih (fun y hy => h y (List.mem_cons_of_mem x hy)) with ⟨a, ha⟩
    have hx := h x (List.mem_cons_self x xs)
    rcases x with q | _ | _ | _ <;> simp [EFloat.isFinite] at hx
    refine ⟨q + a, ?_⟩
    rw [show fsum (fin q :: xs) = fadd (fin q) (fsum xs) from rfl, ha]
    rfl

/-- The skip-NaN mean of a list of finite values is never `+inf`. -/
theorem nanMean_all_finite_not_pinf :
    ∀ xs : List EFloat, (∀ x ∈ xs, x.isFinite = true) →
      nanMean xs ≠ pinf := by
  intro xs h
  have h1 : xs.filter (fun x => !x.isNaN) = xs := by
    rw [List.filter_eq_self]
    intro x hx
    have := h x hx
    rcases x <;> simp_all [EFloat.isFinite, EFloat.isNaN]
  simp only [nanMean, h1]
  by_cases hl : xs.length = 0
  · rw [if_pos hl]
    simp
  · rw [if_neg hl]
    rcases fsum_all_fin xs h with ⟨a, ha⟩
    rw [ha]
    simp only [fdiv]
    rw [if_neg (show ¬((xs.length : ℚ)) = 0 from by exact_mod_cast hl)]
    simp

/-- The spec-side mean that excludes every non-finite value can never be
`+inf`. -/
theorem spec_mean_not_pinf :
    ∀ xs : List EFloat, specMeanExcludingNonfinite xs ≠ pinf := by
  intro xs
  apply nanMean_all_finite_not_pinf
  intro x hx
  exact (List.mem_filter.mp hx).2

/-- Counterexample for C1 as stated: a record with carbs 5.0 and both
insulin doses missing has `total_meal_insulin = 0.0` and a non-finite
(infinite) ratio, but the ratio column's mean over this record and an
ordinary one is `+inf` — the non-finite value is **not** excluded from the
mean computation, which a mean excluding non-finite values would be. -/
theorem C1_icr_mean_counterexample :
    (icr (Record.mk nan none nan nan (fin 5))).isFinite = false ∧
    totalMealInsulin (Record.mk nan none nan nan (fin 5)) = fin 0 ∧
    (Record.mk nan none nan nan (fin 5)).meal_carbs_g ≠ fin 0 ∧
    nanMean [icr (Record.mk nan none nan nan (fin 5)),
        icr (Record.mk nan none (fin 1) (fin 1) (fin 4))]
      ≠ specMeanExcludingNonfinite
          [icr (Record.mk nan none nan nan (fin 5)),
           icr (Record.mk nan none (fin 1) (fin 1) (fin 4))] := by
  have h1 : icr (Record.mk nan none nan nan (fin 5)) = pinf := by
    norm_num [icr, totalMealInsulin, to_float, fadd, fdiv, EFloat.isNaN]
  have h2 : icr (Record.mk nan none (fin 1) (fin 1) (fin 4)) = fin 2 := by
    norm_num [icr, totalMealInsulin, to_float, fadd, fdiv, EFloat.isNaN]
  refine ⟨by rw [h1]; rfl, ?_, by norm_num, ?_⟩
  · norm_num [totalMealInsulin, to_float, fadd, EFloat.isNaN]
  · rw [h1, h2]
    have hl : nanMean [pinf, fin 2] = pinf := by
      norm_num [nanMean, fsum, fadd, fdiv, EFloat.isNaN]
    have hr : specMeanExcludingNonfinite [pinf, fin 2] = fin 2 := by
      norm_num [specMeanExcludingNonfinite, nanMean, fsum, fadd, fdiv,
        EFloat.isNaN, EFloat.isFinite]
    rw [hl, hr]
    simp

/-- C1 (amended): a record whose total meal insulin is exactly 0.0 and
whose carbs are finite and nonzero has a non-finite, non-NaN (infinite)
ratio; the renderer formats it as `inf`/`-inf` text without raising; for
positive carbs the ratio is `+inf` and the statistics stage *includes* it
in the mean — over any further values that are neither NaN nor `-inf` the
ratio column's mean is itself `+inf`, differing from the mean computed
with non-finite values excluded and certainly not a coercion to zero.
NaN entries, by contrast, are genuinely excluded from the mean. -/
theorem C1_icr_nonfinite_amended :
    ∀ (r : Record) (q : ℚ) (xs : List EFloat),
      r.meal_carbs_g = fin q → q ≠ 0 → totalMealInsulin r = fin 0 →
      (icr r).isFinite = false ∧ (icr r).isNaN = false ∧
      (format_stat (icr r) = "inf" ∨ format_stat (icr r) = "-inf") ∧
      (0 < q → (∀ x ∈ xs, x.isNaN = false ∧ x ≠ ninf) →
        nanMean (icr r :: xs) = pinf ∧
        nanMean (icr r :: xs) ≠ specMeanExcludingNonfinite (icr r :: xs) ∧
        nanMean (icr r :: xs) ≠ fin 0) ∧
      nanMean [nan, fin 2] = fin 2 := by
  intro r q xs hc hq ht
  have hicr : icr r = if 0 < q then pinf else ninf := by
    rw [icr, hc, ht]
    simp [fdiv, hq]
  have hlast : nanMean [nan, fin 2] = fin 2 := by
    norm_num [nanMean, fsum, fadd, fdiv, EFloat.isNaN]
  by_cases hpos : 0 < q
  · rw [if_pos hpos] at hicr
    refine ⟨by rw [hicr]; rfl, by rw [hicr]; rfl, Or.inl (by rw [hicr]; rfl),
      fun _ hxs => ?_, hlast⟩
    rw [hicr]
    have hm := nanMean_pinf_cons xs hxs
    refine ⟨hm, ?_, by rw [hm]; simp⟩
    rw [hm]
    exact fun he => spec_mean_not_pinf (pinf :: xs) he.symm
  · rw [if_neg hpos] at hicr
    exact ⟨by rw [hicr]; rfl, by rw [hicr]; rfl, Or.inr (by rw [hicr]; rfl),
      fun hp => absurd hp hpos, hlast⟩

/-- Witness for the amended C1 at a concrete record and column. -/
theorem C1_icr_witness :
    (Record.mk nan none nan nan (fin 5)).meal_carbs_g = fin 5 ∧
      totalMealInsulin (Record.mk nan none nan nan (fin 5)) = fin 0 ∧
      nanMean (icr (Record.mk nan none nan nan (fin 5)) :: [fin 2]) = pinf :=
  ⟨rfl, by norm_num [totalMealInsulin, to_float, fadd, EFloat.isNaN],
   ((C1_icr_nonfinite_amended (Record.mk nan none nan nan (fin 5)) 5 [fin 2]
        rfl (by norm_num)
        (by norm_num [totalMealInsulin, to_float, fadd,
          EFloat.isNaN])).2.2.2.1 (by norm_num) (by decide)).1⟩
